import Mathlib

/-
Verification of the Somfy SDN protocol implementation (py-somfy-sdn).

The development shallowly embeds the wire-protocol layer of the repository:
the frame codec (somfy/messages.py), the payload registry (somfy/payloads.py),
the noise-tolerant message recognizer (somfy/recognizer.py) and the pure parts
of the bus exchanger (somfy/connector.py).  Python integers are modelled as
Nat (with explicit masking where the source masks), Python lists as List Nat,
and fallible code returns Except PyErr.  Python exceptions that the embedded
code can raise are IndexError (out-of-range list subscript) and ValueError
(payload validation failure).
-/

/-- Python exceptions that the embedded fragment can raise. -/
inductive PyErr where
  | indexError : PyErr
  | valueError : PyErr
deriving DecidableEq, Repr

/-- Python list subscript xs[i] with negative-index support: an index i < 0
addresses element len + i; anything out of range raises IndexError. -/
def pyIdx (xs : List Nat) (i : Int) : Except PyErr Nat :=
  let j : Int := if i < 0 then i + xs.length else i
  if 0 ≤ j ∧ j < xs.length then .ok (xs.getD j.toNat 0) else .error .indexError

/-- Python expression (~b) & 0xFF on a nonnegative int b: bitwise complement
truncated to one byte, which equals 255 - b % 256. -/
def pyInvByte (b : Nat) : Nat := 255 - b % 256

/-- Modelled from the spec: enum_or_int and IntEnumWithStr are imported from
somfy.enumutils but are missing from the source tree (enumutils.py only defines
EnumWithMissing and hex_enum).  Per the spec, unknown enum values pass through
as raw integers and IntEnum members compare numerically equal to their values,
so over this numeric embedding enum_or_int is the identity on the value. -/
def enum_or_int (v : Nat) : Nat := v

/-- Somfy SDN node address (somfy/messages.py, class SomfyAddress). -/
structure SomfyAddress where
  a : Nat
  b : Nat
  c : Nat
deriving DecidableEq, Repr

/-- SomfyAddress.serialize: the three octets in reverse byte order. -/
def SomfyAddress.serialize (x : SomfyAddress) : List Nat := [x.c, x.b, x.a]

/-- SomfyAddress.parse_bytes: reads raw_bytes[2], raw_bytes[1], raw_bytes[0]
(in Python argument order), raising IndexError when fewer than 3 bytes. -/
def SomfyAddress.parse_bytes (raw : List Nat) : Except PyErr SomfyAddress :=
  match pyIdx raw 2 with
  | .error e => .error e
  | .ok x2 =>
    match pyIdx raw 1 with
    | .error e => .error e
    | .ok x1 =>
      match pyIdx raw 0 with
      | .error e => .error e
      | .ok x0 => .ok ⟨x2, x1, x0⟩

/-- The MASTER node pseudo-address (somfy/messages.py). -/
def MASTER_ADDRESS : SomfyAddress := ⟨0x7F, 0x7F, 0x7F⟩

/-- The broadcast address (somfy/messages.py). -/
def BROADCAST_ADDR : SomfyAddress := ⟨0xFF, 0xFF, 0xFF⟩

/-- The payload classes of somfy/payloads.py plus the generic SomfyPayload of
somfy/messages.py, as a closed enumeration (the registry is process-wide and
filled once by register_documented_payloads). -/
inductive PayloadCls where
  | somfyPayload
  | emptyPayload
  | groupAddr
  | groupIndex
  | nack
  | nodeAppVersion
  | nodeLabel
  | setLocalUI
  | getLocalUI
  | postLocalUI
  | setMotorIP
  | getMotorIP
  | postMotorIP
  | motorSpeed
  | setNetworkLock
  | postNetworkLock
  | ctrlMoveTo
  | ctrlStop
  | postMotorPosition
  | postMotorStatus
  | ctrlMoveForced
  | ctrlMoveRelative
  | setMotorLimits
  | postMotorLimits
  | motorRotationDirection
deriving DecidableEq, Repr

/-- The class attribute expected_lengths of each payload class: none means no
length restriction (the generic SomfyPayload). -/
def expected_lengths : PayloadCls → Option (List Nat)
  | .somfyPayload => none
  | .emptyPayload => some [0]
  | .groupAddr => some [4]
  | .groupIndex => some [1]
  | .nack => some [1]
  | .nodeAppVersion => some [6]
  | .nodeLabel => some [16]
  | .setLocalUI => some [3]
  | .getLocalUI => some [1]
  | .postLocalUI => some [5]
  | .setMotorIP => some [4, 6]
  | .getMotorIP => some [1]
  | .postMotorIP => some [4, 9]
  | .motorSpeed => some [3]
  | .setNetworkLock => some [2]
  | .postNetworkLock => some [6]
  | .ctrlMoveTo => some [4, 6]
  | .ctrlStop => some [1]
  | .postMotorPosition => some [5, 11]
  | .postMotorStatus => some [4]
  | .ctrlMoveForced => some [3]
  | .ctrlMoveRelative => some [4]
  | .setMotorLimits => some [4]
  | .postMotorLimits => some [4]
  | .motorRotationDirection => some [1]

/-- SomfyPayload.__init__ (somfy/messages.py): checks that every entry is a
byte (p < 0 is impossible for Nat, so only p > 255 is checked), then that the
length is permitted; raises ValueError otherwise.  EmptyPayload.__init__
(somfy/payloads.py) ignores its arguments and always constructs the empty
content, so it never raises. -/
def SomfyPayload_init (cls : PayloadCls) (content : List Nat) :
    Except PyErr (PayloadCls × List Nat) :=
  match cls with
  | .emptyPayload => .ok (.emptyPayload, [])
  | _ =>
    if content.any (fun p => 255 < p) then .error .valueError
    else
      match expected_lengths cls with
      | none => .ok (cls, content)
      | some ls => if content.length ∈ ls then .ok (cls, content)
                   else .error .valueError

/-- MESSAGE_PAYLOAD_MAP after register_documented_payloads() has run: the
package somfy/__init__.py calls it at import time, so this is the registry in
effect for every decoder in the repository. -/
def MESSAGE_PAYLOAD_MAP : Nat → Option PayloadCls
  | 0x40 => some .emptyPayload
  | 0x60 => some .emptyPayload
  | 0x51 => some .groupAddr
  | 0x41 => some .groupIndex
  | 0x61 => some .groupAddr
  | 0x7F => some .emptyPayload
  | 0x6F => some .nack
  | 0x74 => some .emptyPayload
  | 0x75 => some .nodeAppVersion
  | 0x55 => some .nodeLabel
  | 0x45 => some .emptyPayload
  | 0x65 => some .nodeLabel
  | 0x17 => some .setLocalUI
  | 0x27 => some .getLocalUI
  | 0x37 => some .postLocalUI
  | 0x15 => some .setMotorIP
  | 0x25 => some .getMotorIP
  | 0x35 => some .postMotorIP
  | 0x13 => some .motorSpeed
  | 0x23 => some .emptyPayload
  | 0x33 => some .motorSpeed
  | 0x16 => some .setNetworkLock
  | 0x26 => some .emptyPayload
  | 0x36 => some .postNetworkLock
  | 0x03 => some .ctrlMoveTo
  | 0x02 => some .ctrlStop
  | 0x0C => some .emptyPayload
  | 0x0D => some .postMotorPosition
  | 0x0E => some .emptyPayload
  | 0x0F => some .postMotorStatus
  | 0x01 => some .ctrlMoveForced
  | 0x04 => some .ctrlMoveRelative
  | 0x11 => some .setMotorLimits
  | 0x21 => some .emptyPayload
  | 0x31 => some .postMotorLimits
  | 0x12 => some .motorRotationDirection
  | 0x22 => some .emptyPayload
  | 0x32 => some .motorRotationDirection
  | _ => none

/-- attempt_to_parse_payload (somfy/messages.py): looks the message id up in
the registry; an unknown id gets the generic SomfyPayload; a registered id
invokes that class constructor, which raises ValueError on a length mismatch
(there is no try/except around it). -/
def attempt_to_parse_payload (msgid : Nat) (content : List Nat) :
    Except PyErr (PayloadCls × List Nat) :=
  match MESSAGE_PAYLOAD_MAP msgid with
  | none => SomfyPayload_init .somfyPayload content
  | some cls => SomfyPayload_init cls content

/-- A Somfy SDN message (somfy/messages.py, class SomfyMessage).  The payload
object is represented by its class tag and its content bytes. -/
structure SomfyMessage where
  msgid : Nat
  from_node_type : Nat
  from_addr : SomfyAddress
  to_node_type : Nat
  to_addr : SomfyAddress
  need_ack : Bool
  payloadCls : PayloadCls
  payloadContent : List Nat
deriving DecidableEq, Repr

/-- SomfyMessage.compute_checksum: big-endian 16-bit sum of the bytes,
returned as the two-element list [sum // 256 & 0xFF, sum % 256 & 0xFF]. -/
def SomfyMessage.compute_checksum (msg : List Nat) : List Nat :=
  [msg.sum / 256 &&& 255, msg.sum % 256 &&& 255]

/-- The un-inverted frame bytes assembled by SomfyMessage.serialize: header,
the two addresses in reverse byte order, and the payload content. -/
def SomfyMessage.resList (m : SomfyMessage) : List Nat :=
  [m.msgid &&& 255,
   (m.payloadContent.length + 11) ||| (if m.need_ack then 128 else 0),
   (m.from_node_type <<< 4) ||| m.to_node_type] ++
  m.from_addr.serialize ++ m.to_addr.serialize ++ m.payloadContent

/-- SomfyMessage.serialize: assembles the frame bytes, inverts each byte with
(~x) & 0xFF, and appends the checksum of the inverted bytes. -/
def SomfyMessage.serialize (m : SomfyMessage) : List Nat :=
  let inv := m.resList.map pyInvByte
  inv ++ SomfyMessage.compute_checksum inv

/-- SomfyMessage.try_parse: validates the trailing big-endian checksum, undoes
the bitwise inversion, checks the declared length against the actual length,
and extracts the header fields, addresses and payload.  Note the source has no
explicit check of the length range [11, 32]. -/
def SomfyMessage.try_parse (data : List Nat) : Except PyErr (Option SomfyMessage) :=
  let checksum := SomfyMessage.compute_checksum (data.take (data.length - 2))
  match pyIdx data (-2) with
  | .error e => .error e
  | .ok d2 =>
    if checksum.getD 0 0 ≠ d2 then .ok none
    else
      match pyIdx data (-1) with
      | .error e => .error e
      | .ok d1 =>
        if checksum.getD 1 0 ≠ d1 then .ok none
        else
          let inverted := (data.take (data.length - 2)).map pyInvByte
          match pyIdx inverted 0 with
          | .error e => .error e
          | .ok i0 =>
            match pyIdx inverted 1 with
            | .error e => .error e
            | .ok i1 =>
              if (i1 &&& 127) ≠ data.length then .ok none
              else
                match pyIdx inverted 2 with
                | .error e => .error e
                | .ok i2 =>
                  match SomfyAddress.parse_bytes ((inverted.drop 3).take 3) with
                  | .error e => .error e
                  | .ok fromA =>
                    match SomfyAddress.parse_bytes ((inverted.drop 6).take 3) with
                    | .error e => .error e
                    | .ok toA =>
                      match attempt_to_parse_payload (enum_or_int i0) (inverted.drop 9) with
                      | .error e => .error e
                      | .ok (cls, content) =>
                        .ok (some
                          { msgid := enum_or_int i0
                            from_node_type := enum_or_int ((i2 >>> 4) &&& 15)
                            from_addr := fromA
                            to_node_type := enum_or_int (i2 &&& 15)
                            to_addr := toA
                            need_ack := i1 &&& 128 != 0
                            payloadCls := cls
                            payloadContent := content })

/-- MAX_MESSAGE_LEN (somfy/recognizer.py): size of the ring buffer. -/
def MAX_MESSAGE_LEN : Nat := 32

/-- MIN_MESSAGE_LENGTH (somfy/recognizer.py): smallest possible frame. -/
def MIN_MESSAGE_LENGTH : Nat := 11

/-- MessageRecognizer state (somfy/recognizer.py): a 32-byte ring, the write
cursor, and the optional node-type filter (numeric, see enum_or_int). -/
structure MessageRecognizer where
  ring : List Nat
  node_type_filter : Option Nat
  pos : Nat
deriving DecidableEq, Repr

/-- MessageRecognizer.__init__: a zeroed 32-byte ring with the cursor at 0. -/
def MessageRecognizer.new (filter : Option Nat) : MessageRecognizer :=
  ⟨List.replicate 32 0, filter, 0⟩

/-- MessageRecognizer.ring_at: self.ring[i % 32] & 0xFF.  The index is an int
that may be negative; Python % on a negative int agrees with Int.emod. -/
def ringAt (ring : List Nat) (i : Int) : Nat :=
  ring.getD (i % 32).toNat 0 &&& 255

/-- MessageRecognizer.copy: the count ring bytes starting at from_pos, read
through ring_at (so modulo 32 and masked). -/
def MessageRecognizer.copy (ring : List Nat) (from_pos count : Nat) : List Nat :=
  (List.range count).map (fun i => ringAt ring ((from_pos + i : Nat) : Int))

/-- MessageRecognizer.blank_out: writes 0xFF at ring positions from_pos % 32,
(from_pos+1) % 32, ..., (from_pos+count-1) % 32, in loop order. -/
def blank_out (ring : List Nat) (from_pos : Nat) : Nat → List Nat
  | 0 => ring
  | c + 1 => blank_out (ring.set (from_pos % 32) 255) (from_pos + 1) c

/-- The data returned by one successful recognition: the parsed message plus
the ring window (start position and byte count) it was read from.  The window
is ghost information used by the theorems; add_data below projects it away. -/
structure EmitInfo where
  msg : SomfyMessage
  start : Nat
  count : Nat
deriving DecidableEq, Repr

/-- The backward scan of MessageRecognizer.add_data (the while loop over
probable_message_start_pos).  The loop runs at most 29 iterations, so fuel 32
is never exhausted; remaining_sum is an int that may go negative. -/
def scanLoop (filter : Option Nat) (pos2 : Nat) :
    List Nat → Nat → Nat → Int → Nat → Except PyErr (List Nat × Option EmitInfo)
  | ring, _, _, _, 0 => .ok (ring, none)
  | ring, start, count, rem, fuel + 1 =>
    if start = pos2 then .ok (ring, none)
    else
      let rem2 := rem - ringAt ring ((start : Nat) : Int)
      if rem2 = 0 then
        if count < MIN_MESSAGE_LENGTH then .ok (ring, none)
        else
          match SomfyMessage.try_parse (MessageRecognizer.copy ring start count) with
          | .error e => .error e
          | .ok none => .ok (ring, none)
          | .ok (some msg) =>
            let ring2 := blank_out ring start count
            if filter = none ∨ filter = some msg.from_node_type then
              .ok (ring2, some ⟨msg, start, count⟩)
            else
              scanLoop filter pos2 ring2 (((start : Int) - 1) % 32).toNat (count + 1) rem2 fuel
      else
        scanLoop filter pos2 ring (((start : Int) - 1) % 32).toNat (count + 1) rem2 fuel

/-- MessageRecognizer.add_data, instrumented to report the emitted window:
read the previous byte, store the new byte, advance the cursor, reject an
impossible checksum, and otherwise run the backward scan. -/
def addDataCore (st : MessageRecognizer) (cur_byte : Nat) :
    Except PyErr (MessageRecognizer × Option EmitInfo) :=
  let prev_byte := ringAt st.ring ((st.pos : Int) - 1)
  let ring1 := st.ring.set st.pos cur_byte
  let possible_checksum := prev_byte * 256 + cur_byte
  let pos2 := (st.pos + 1) % 32
  if 32 * 256 ≤ possible_checksum ∨ possible_checksum = 0 then
    .ok (⟨ring1, st.node_type_filter, pos2⟩, none)
  else
    match scanLoop st.node_type_filter pos2 ring1 (((pos2 : Int) - 3) % 32).toNat 3
        (possible_checksum : Int) 32 with
    | .error e => .error e
    | .ok (ring2, e) => .ok (⟨ring2, st.node_type_filter, pos2⟩, e)

/-- MessageRecognizer.add_data as in the source: the detected message only. -/
def MessageRecognizer.add_data (st : MessageRecognizer) (cur_byte : Nat) :
    Except PyErr (MessageRecognizer × Option SomfyMessage) :=
  match addDataCore st cur_byte with
  | .error e => .error e
  | .ok (st2, e) => .ok (st2, e.map (fun i => i.msg))

/-- Feeding a byte list into a recognizer, recording the per-step emission. -/
def feedTrace (st : MessageRecognizer) :
    List Nat → Except PyErr (List (Option EmitInfo) × MessageRecognizer)
  | [] => .ok ([], st)
  | b :: rest =>
    match addDataCore st b with
    | .error e => .error e
    | .ok (st2, e) =>
      match feedTrace st2 rest with
      | .error e2 => .error e2
      | .ok (tr, stf) => .ok (e :: tr, stf)

/-- Running a recognizer over a byte list and collecting the messages, in
order (the read loop of SomfyConnector._do_exchange and of the drainer). -/
def recognizeFrom (st : MessageRecognizer) :
    List Nat → Except PyErr (List SomfyMessage)
  | [] => .ok []
  | b :: rest =>
    match st.add_data b with
    | .error e => .error e
    | .ok (st2, none) => recognizeFrom st2 rest
    | .ok (st2, some m) =>
      match recognizeFrom st2 rest with
      | .error e => .error e
      | .ok ms => .ok (m :: ms)

/-- The messages a fresh, unfiltered recognizer extracts from a byte list. -/
def recognizeAll (bs : List Nat) : Except PyErr (List SomfyMessage) :=
  recognizeFrom (MessageRecognizer.new none) bs

/-- The read loop of SomfyConnector._do_exchange (somfy/connector.py): read a
byte, feed a recognizer, hand each extracted frame to the consumer, continue
while the consumer returns true; when it returns false the exchange succeeds.
The asyncio deadline is modelled by the finite list of bytes the channel
yields before COMM_TIMEOUT: exhausting it is the TimeoutError path, on which
exchange returns false. -/
def do_exchange_reads (consumer : SomfyMessage → Bool) (st : MessageRecognizer) :
    List Nat → Except PyErr Bool
  | [] => .ok false
  | b :: rest =>
    match st.add_data b with
    | .error e => .error e
    | .ok (st2, none) => do_exchange_reads consumer st2 rest
    | .ok (st2, some m) =>
      if consumer m then do_exchange_reads consumer st2 rest else .ok true

/-- SomfyConnector.exchange (somfy/connector.py), purified: the write of
to_send and the locking protocol are external I/O; with no consumer the
method returns true immediately after the write (fire and forget); otherwise
it runs the read loop over a fresh recognizer.  Other exceptions propagate. -/
def SomfyConnector.exchange (to_send : Option SomfyMessage)
    (consumer : Option (SomfyMessage → Bool)) (incoming : List Nat) :
    Except PyErr Bool :=
  match to_send, consumer with
  | _, none => .ok true
  | _, some f => do_exchange_reads f (MessageRecognizer.new none) incoming

/-- BackoffPolicy (somfy/connector.py): wait times are whole seconds here
(the source returns them as Python numbers through a float-annotated method,
but every produced value is a nonnegative integer). -/
structure BackoffPolicy where
  max_wait : Nat
  initial_wait : Nat
  cur_retry : Nat
deriving DecidableEq, Repr

/-- BackoffPolicy.__init__: max_wait 100, initial_wait 1, cur_retry 0. -/
def BackoffPolicy.new : BackoffPolicy := ⟨100, 1, 0⟩

/-- BackoffPolicy.success: resets the retry counter. -/
def BackoffPolicy.success (p : BackoffPolicy) : BackoffPolicy :=
  { p with cur_retry := 0 }

/-- BackoffPolicy.get_wait_time_sec_after_a_failure: returns 0 on the first
call since a reset, otherwise min(max_wait, 2 ^ (cur_retry - 1)); increments
cur_retry on every call. -/
def BackoffPolicy.get_wait_time_sec_after_a_failure (p : BackoffPolicy) :
    Nat × BackoffPolicy :=
  if p.cur_retry ≤ 0 then (0, { p with cur_retry := p.cur_retry + 1 })
  else (min p.max_wait (2 ^ (p.cur_retry - 1)), { p with cur_retry := p.cur_retry + 1 })

/-- The policy state after j calls of get_wait_time_sec_after_a_failure. -/
def BackoffPolicy.afterCalls (p : BackoffPolicy) : Nat → BackoffPolicy
  | 0 => p
  | j + 1 => (p.afterCalls j).get_wait_time_sec_after_a_failure.2

/-- The wait time produced by the k-th failure call (k counted from 1) on a
policy starting from state p. -/
def BackoffPolicy.kthWait (p : BackoffPolicy) (k : Nat) : Nat :=
  ((p.afterCalls (k - 1)).get_wait_time_sec_after_a_failure).1

/-- CtrlMoveRelativePayload.make (somfy/payloads.py): assembles the 4-byte
content and runs it through the payload constructor checks. -/
def CtrlMoveRelativePayload.make (func parameter : Nat) :
    Except PyErr (PayloadCls × List Nat) :=
  SomfyPayload_init .ctrlMoveRelative
    [func, parameter &&& 255, (parameter >>> 8) &&& 255, 0]

/-- CtrlMoveRelativePayload.get_parameter as written in the source: it computes
content[2] >> 8 | content[1] (a right shift, unlike every sibling payload,
which uses content[hi] << 8 | content[lo]). -/
def CtrlMoveRelativePayload.get_parameter (content : List Nat) : Except PyErr Nat :=
  match pyIdx content 2 with
  | .error e => .error e
  | .ok c2 =>
    match pyIdx content 1 with
    | .error e => .error e
    | .ok c1 => .ok ((c2 >>> 8) ||| c1)

/-- A Boolean observer: does a decode attempt return a frame? -/
def returnsFrame : Except PyErr (Option SomfyMessage) → Bool
  | .ok (some _) => true
  | _ => false

/-- A frame all of whose fields are in wire range and whose payload object is
exactly what the payload registry produces for its message id (the generic
opaque payload when the id is unregistered).  Every frame obtained from
try_parse, or built through the typed payload constructors, satisfies this. -/
def ValidFrame (m : SomfyMessage) : Prop :=
  m.msgid < 256 ∧ m.from_node_type < 16 ∧ m.to_node_type < 16 ∧
  m.from_addr.a < 256 ∧ m.from_addr.b < 256 ∧ m.from_addr.c < 256 ∧
  m.to_addr.a < 256 ∧ m.to_addr.b < 256 ∧ m.to_addr.c < 256 ∧
  m.payloadContent.length ≤ 21 ∧ (∀ x ∈ m.payloadContent, x < 256) ∧
  attempt_to_parse_payload m.msgid m.payloadContent = .ok (m.payloadCls, m.payloadContent)

/-- The running sum that the backward scan of add_data maintains: after the
iteration with candidate length k, the scan has subtracted the ring bytes at
positions pos2-3, pos2-4, ..., pos2-k from the candidate checksum. -/
def windowSum (ring : List Nat) (pos2 : Nat) (k : Nat) : Nat :=
  ((List.range (k - 2)).map (fun j => ringAt ring ((pos2 : Int) - 3 - Int.ofNat j))).sum

/-- The candidate checksum formed from the previous ring byte and the byte
just fed (possible_checksum in add_data, before the cursor moves). -/
def possibleChecksum (st : MessageRecognizer) (cur_byte : Nat) : Nat :=
  ringAt st.ring ((st.pos : Int) - 1) * 256 + cur_byte

/-- The ring start position of the scan window of length k ending at the
cursor position pos2. -/
def windowStart (pos2 k : Nat) : Nat := (((pos2 : Int) - k) % 32).toNat

/-- An 11-byte frame from the repository test corpus (the first line of the
stream in tests/test_decoding.py): a GET_NODE_ADDR broadcast from MASTER. -/
def hexmsg1 : List Nat :=
  [0xbf, 0xf4, 0xff, 0x80, 0x80, 0x80, 0x00, 0x00, 0x00, 0x04, 0x32]

/-- The frame encoded by hexmsg1. -/
def msg1frame : SomfyMessage :=
  { msgid := 0x40, from_node_type := 0, from_addr := ⟨127, 127, 127⟩,
    to_node_type := 0, to_addr := ⟨255, 255, 255⟩, need_ack := false,
    payloadCls := .emptyPayload, payloadContent := [] }

/-- A recognizer that has consumed the first ten bytes of hexmsg1 (cursor at
10, no filter): feeding the final byte 0x32 makes it emit msg1frame. -/
def preState : MessageRecognizer :=
  ⟨[0xbf, 0xf4, 0xff, 0x80, 0x80, 0x80, 0x00, 0x00, 0x00, 0x04,
    0, 0, 0, 0, 0, 0, 0, 0, 0, 0, 0, 0, 0, 0, 0, 0, 0, 0, 0, 0, 0, 0],
   none, 10⟩

/-- The same recognizer with a node-type filter set to 5 (RTS transmitter),
which does not match the from-type 0 of msg1frame. -/
def preStateFiltered : MessageRecognizer :=
  ⟨[0xbf, 0xf4, 0xff, 0x80, 0x80, 0x80, 0x00, 0x00, 0x00, 0x04,
    0, 0, 0, 0, 0, 0, 0, 0, 0, 0, 0, 0, 0, 0, 0, 0, 0, 0, 0, 0, 0, 0],
   some 5, 10⟩

/-- A recognizer state built for the short-candidate scan test: with cursor 5
and byte 10 fed, the running remainder first reaches zero at candidate length
5, which is below the 11-byte minimum. -/
def shortCandState : MessageRecognizer :=
  ⟨[0, 10, 0, 0, 0, 0, 0, 0, 0, 0, 0, 0, 0, 0, 0, 0,
    0, 0, 0, 0, 0, 0, 0, 0, 0, 0, 0, 0, 0, 0, 0, 0],
   none, 5⟩

/-- A claim-valid frame (payload length 2) whose payload object is the generic
SomfyPayload although its message id 0x6F (NACK) is registered with a typed
class permitting only length 1. -/
def genericNack2 : SomfyMessage :=
  { msgid := 0x6F, from_node_type := 0, from_addr := MASTER_ADDRESS,
    to_node_type := 0, to_addr := BROADCAST_ADDR, need_ack := false,
    payloadCls := .somfyPayload, payloadContent := [0, 0] }

/-- An 11-byte NACK frame with an empty payload: its wire form has a valid
checksum and declared length, but the payload slice length 0 is not permitted
by the registered NackPayload class (which requires length 1). -/
def emptyNack : SomfyMessage :=
  { msgid := 0x6F, from_node_type := 0, from_addr := MASTER_ADDRESS,
    to_node_type := 0, to_addr := BROADCAST_ADDR, need_ack := false,
    payloadCls := .somfyPayload, payloadContent := [] }

/-- A typed, registry-consistent frame used to exercise the round trip: a
CTRL_MOVETO with a 4-byte payload and the ACK flag set. -/
def moveToFrame : SomfyMessage :=
  { msgid := 0x03, from_node_type := 0, from_addr := MASTER_ADDRESS,
    to_node_type := 8, to_addr := ⟨0x13, 0x3D, 0xC6⟩, need_ack := true,
    payloadCls := .ctrlMoveTo, payloadContent := [4, 50, 0, 0] }

/-- A 33-byte buffer with a consistent checksum and a declared length of 33:
bytes [255, 222, 255 x 29, 30, 192].  The source accepts it because try_parse
never checks the length range. -/
def c3big : List Nat := [255, 222] ++ List.replicate 29 255 ++ [30, 192]

/-- Flipping bit k of entry j of a buffer (the single-bit corruption of the
checksum-robustness property). -/
def flipBit (data : List Nat) (j k : Nat) : List Nat :=
  data.set j (data.getD j 0 ^^^ 2 ^ k)


/-- The recognizer state after preState has consumed the final byte of
hexmsg1: the frame window is blanked and the cursor sits at 11. -/
def postState : MessageRecognizer :=
  ⟨[255, 255, 255, 255, 255, 255, 255, 255, 255, 255, 255,
    0, 0, 0, 0, 0, 0, 0, 0, 0, 0, 0, 0, 0, 0, 0, 0, 0, 0, 0, 0, 0], none, 11⟩

/-- C9: the source computes content[2] >> 8 | content[1], so the parameter
round trip fails: make(MOVE_NEXT_IP_DOWN, 256) stores content [0, 0, 1, 0] and
get_parameter returns (1 >>> 8) ||| 0 = 0, not 256.  The claim (with the spec,
which flags this line as a typo for the shift-left form used by every other
16-bit payload field) is right and the code is wrong. -/
theorem c9_move_relative_parameter :
    CtrlMoveRelativePayload.make 0 256 = .ok (.ctrlMoveRelative, [0, 0, 1, 0]) ∧
    CtrlMoveRelativePayload.get_parameter [0, 0, 1, 0] = .ok 0 := ⟨rfl, rfl⟩

/-- C2: a wire buffer with valid checksum and declared length whose payload
slice length is rejected by the registered payload class does NOT fall back to
the opaque payload: SomfyPayload.__init__ raises ValueError and try_parse has
no handler, so the decode raises instead of returning a frame.  Witnessed by
an 11-byte NACK frame with an empty payload (NackPayload permits length 1
only), whose serialization is checksum- and length-consistent by
construction. -/
theorem c2_payload_mismatch_raises :
    SomfyMessage.try_parse (SomfyMessage.serialize emptyNack) = .error .valueError := rfl

/-- C3 counterexample: try_parse has no length-range check.  The 33-byte
buffer c3big (above the claimed maximum of 32) is decoded to a frame, and the
2-byte input [0, 0] raises IndexError instead of returning None. -/
theorem c3_counterexample :
    returnsFrame (SomfyMessage.try_parse c3big) = true ∧ c3big.length = 33 ∧
    SomfyMessage.try_parse [0, 0] = .error .indexError := ⟨rfl, rfl, rfl⟩

/-- C1 counterexample: genericNack2 is a valid frame in the sense of the claim
(all fields in range, payload length 2, between 0 and 21), yet decoding its
serialization does not yield a frame at all: the registered NackPayload class
rejects the length 2 and the decode raises ValueError. -/
theorem c1_counterexample :
    SomfyMessage.try_parse (SomfyMessage.serialize genericNack2) = .error .valueError ∧
    genericNack2.payloadContent.length ≤ 21 := ⟨rfl, by decide⟩

/-- After j failure calls, a fresh backoff policy has retry counter j and the
default maximum wait of 100. -/
theorem backoff_afterCalls (j : Nat) : (BackoffPolicy.new.afterCalls j).cur_retry = j ∧
    (BackoffPolicy.new.afterCalls j).max_wait = 100 := by
  induction j with
  | zero => exact ⟨rfl, rfl⟩
  | succ n ih =>
    obtain ⟨h1, h2⟩ := ih
    simp only [BackoffPolicy.afterCalls, BackoffPolicy.get_wait_time_sec_after_a_failure]
    split <;> simp_all

/-- C8 counterexample: the second failure call on a fresh policy returns 1
second, while the claimed formula min(max_wait, 2 ^ (k-1)) demands 2 seconds
for k = 2. -/
theorem c8_counterexample :
    BackoffPolicy.new.kthWait 2 = 1 ∧ min 100 (2 ^ (2 - 1)) = 2 := ⟨rfl, rfl⟩

/-- C8 (amended): the first failure call returns 0; the k-th failure call for
k at least 2 returns min(max_wait, 2 ^ (k - 2)) (the exponent is the number of
failures before the current one, not k - 1); success resets the counter to 0;
the default max_wait is 100. -/
theorem c8_backoff (k : Nat) (hk : 2 ≤ k) :
    BackoffPolicy.new.kthWait 1 = 0 ∧
    BackoffPolicy.new.kthWait k = min 100 (2 ^ (k - 2)) ∧
    (∀ p : BackoffPolicy, p.success.cur_retry = 0) ∧
    BackoffPolicy.new.max_wait = 100 := by
  refine ⟨rfl, ?_, fun p => rfl, rfl⟩
  obtain ⟨h1, h2⟩ := backoff_afterCalls (k - 1)
  unfold BackoffPolicy.kthWait BackoffPolicy.get_wait_time_sec_after_a_failure
  rw [h1]
  have : ¬ (k - 1 ≤ 0) := by omega
  rw [if_neg this]
  simp only [h2]
  congr 1

/-- C8 witness: the amended statement evaluated at the third failure call. -/
theorem c8_backoff_witness : 2 ≤ 3 ∧
    (BackoffPolicy.new.kthWait 1 = 0 ∧
     BackoffPolicy.new.kthWait 3 = min 100 (2 ^ (3 - 2)) ∧
     (∀ p : BackoffPolicy, p.success.cur_retry = 0) ∧
     BackoffPolicy.new.max_wait = 100) :=
  ⟨by decide, c8_backoff 3 (by decide)⟩

/-- A successful pyIdx lookup means the (possibly negative) index was in
range. -/
theorem pyIdx_ok_nonneg_lt (xs : List Nat) (i : Int) (v : Nat)
    (h : pyIdx xs i = .ok v) :
    (0 ≤ (if i < 0 then i + xs.length else i)) ∧
    (if i < 0 then i + xs.length else i) < xs.length := by
  by_cases hc : (0 ≤ (if i < 0 then i + (xs.length : Int) else i)) ∧
      (if i < 0 then i + (xs.length : Int) else i) < xs.length
  · exact hc
  · simp only [pyIdx] at h
    rw [if_neg hc] at h
    exact absurd h (by simp)

/-- SomfyAddress.parse_bytes succeeds only on at least three bytes. -/
theorem parse_bytes_ok_len (raw : List Nat) (x : SomfyAddress)
    (h : SomfyAddress.parse_bytes raw = .ok x) : 3 ≤ raw.length := by
  unfold SomfyAddress.parse_bytes at h
  split at h
  · exact absurd h (by simp)
  · rename_i x2 h2
    have := pyIdx_ok_nonneg_lt raw 2 x2 h2
    rw [if_neg (by omega)] at this
    omega

/-- C3 (amended): on an input shorter than 11 bytes try_parse never returns a
frame; it returns None or raises IndexError (the source has no explicit
length-range check: the 11-byte minimum is only enforced structurally, by the
address extraction, and inputs longer than 32 bytes can decode successfully,
see the counterexample). -/
theorem c3_short_input_no_frame (data : List Nat) (h : data.length < 11) :
    ∀ m, SomfyMessage.try_parse data ≠ .ok (some m) := by
  intro m heq
  simp only [SomfyMessage.try_parse] at heq
  repeat' split at heq
  all_goals simp_all
  all_goals
    first
    | omega
    | (rename_i hToAddr hAtt
       have h3 := parse_bytes_ok_len _ _ hToAddr
       simp only [List.length_take, List.length_drop, List.length_map] at h3
       omega)

/-- C3 witness: the amended statement evaluated on the 2-byte input. -/
theorem c3_short_input_no_frame_witness :
    ([0, 0] : List Nat).length < 11 ∧
    ∀ m, SomfyMessage.try_parse [0, 0] ≠ .ok (some m) :=
  ⟨by decide, c3_short_input_no_frame [0, 0] (by decide)⟩

/-- Masking with 0xFF is reduction modulo 256. -/
theorem and255_eq (x : Nat) : x &&& 255 = x % 256 := by
  have := Nat.and_pow_two_sub_one_eq_mod x 8
  norm_num at this
  exact this

/-- Bit facts on the length byte: for x below 128, setting and clearing the
ACK bit 0x80 and masking with 0x7F behave as expected. -/
theorem byteBits : ∀ x < 128, ((x ||| 128) &&& 127 = x ∧ (x ||| 128) &&& 128 = 128 ∧
    (x ||| 128) < 256 ∧ x &&& 127 = x ∧ x &&& 128 = 0) := by decide

/-- Bit facts on the addr-types byte: packing two 4-bit values with shift and
or is inverted by shift and mask. -/
theorem destBits : ∀ a < 16, ∀ b < 16, (((a <<< 4) ||| b) >>> 4) &&& 15 = a ∧
    ((a <<< 4) ||| b) &&& 15 = b ∧ ((a <<< 4) ||| b) < 256 := by decide

/-- Byte inversion is an involution on bytes. -/
theorem pyInv_invol {x : Nat} (h : x < 256) : pyInvByte (pyInvByte x) = x := by
  unfold pyInvByte
  omega

/-- The Python subscripts xs[-2] and xs[-1] on a list ending in two
elements. -/
theorem pyIdx_append2 (l : List Nat) (u v : Nat) :
    pyIdx (l ++ [u, v]) (-2) = .ok u ∧ pyIdx (l ++ [u, v]) (-1) = .ok v := by
  constructor
  · unfold pyIdx
    have hj : (if (-2 : Int) < 0 then -2 + ((l ++ [u, v]).length : Int) else -2) = (l.length : Int) := by
      rw [if_pos (by norm_num)]
      push_cast [List.length_append, List.length_cons, List.length_nil]
      omega
    rw [hj, if_pos ?side1]
    case side1 =>
      refine ⟨by positivity, ?_⟩
      push_cast [List.length_append, List.length_cons, List.length_nil]
      omega
    rw [Int.toNat_natCast, List.getD_append_right l [u, v] 0 l.length (le_refl _)]
    simp
  · unfold pyIdx
    have hj : (if (-1 : Int) < 0 then -1 + ((l ++ [u, v]).length : Int) else -1) = ((l.length + 1 : Nat) : Int) := by
      rw [if_pos (by norm_num)]
      push_cast [List.length_append, List.length_cons, List.length_nil]
      omega
    rw [hj, if_pos ?side2]
    case side2 =>
      refine ⟨by positivity, ?_⟩
      push_cast [List.length_append, List.length_cons, List.length_nil]
      omega
    rw [Int.toNat_natCast, List.getD_append_right l [u, v] 0 (l.length + 1) (by omega)]
    simp

/-- Subscript 0 on a nonempty list. -/
theorem pyIdx_cons0 (a : Nat) (l : List Nat) : pyIdx (a :: l) 0 = .ok a := by
  unfold pyIdx
  simp

/-- Subscript 1 on a list of length at least two. -/
theorem pyIdx_cons1 (a b : Nat) (l : List Nat) : pyIdx (a :: b :: l) 1 = .ok b := by
  unfold pyIdx
  norm_num

/-- Subscript 2 on a list of length at least three. -/
theorem pyIdx_cons2 (a b c : Nat) (l : List Nat) : pyIdx (a :: b :: c :: l) 2 = .ok c := by
  unfold pyIdx
  norm_num
  rw [if_pos (by push_cast; omega)]
  simp

/-- C1 (amended): for every valid frame whose payload object is the variant
the registry assigns to its message id (the opaque payload when the id is
unregistered) and whose content that variant accepts unchanged, decoding the
serialization returns exactly the original frame.  In this embedding a frame
is precisely the tuple of fields that as_dict exposes (msgid, node types,
addresses, need_ack, and the payload given by its class and content, whose
as_dict is a function of those two), so recovering the frame verbatim
establishes the dictionary-form equality of the claim. -/
theorem c1_roundtrip (m : SomfyMessage) (h : ValidFrame m) :
    SomfyMessage.try_parse (SomfyMessage.serialize m) = .ok (some m) := by
  obtain ⟨h1, h2, h3, h4a, h4b, h4c, h5a, h5b, h5c, h6, h7, h8⟩ := h
  have hmsgid : m.msgid &&& 255 = m.msgid := by
    rw [and255_eq]
    exact Nat.mod_eq_of_lt h1
  have hL : m.payloadContent.length + 11 < 128 := by omega
  have hlenByte : (m.payloadContent.length + 11) ||| (if m.need_ack then 128 else 0) < 256 := by
    cases hm : m.need_ack
    · simpa using by omega
    · simpa using (byteBits _ hL).2.2.1
  have hdest := destBits m.from_node_type h2 m.to_node_type h3
  have hconsform : m.resList =
      (m.msgid &&& 255) ::
      ((m.payloadContent.length + 11) ||| (if m.need_ack then 128 else 0)) ::
      ((m.from_node_type <<< 4) ||| m.to_node_type) ::
      m.from_addr.c :: m.from_addr.b :: m.from_addr.a ::
      m.to_addr.c :: m.to_addr.b :: m.to_addr.a :: m.payloadContent := by
    simp [SomfyMessage.resList, SomfyAddress.serialize]
  have hbytes : ∀ v ∈ m.resList, v < 256 := by
    intro v hv
    rw [hconsform] at hv
    simp only [List.mem_cons] at hv
    rcases hv with rfl | rfl | rfl | rfl | rfl | rfl | rfl | rfl | rfl | hv
    · rw [hmsgid]; exact h1
    · exact hlenByte
    · exact hdest.2.2
    · exact h4c
    · exact h4b
    · exact h4a
    · exact h5c
    · exact h5b
    · exact h5a
    · exact h7 v hv
  set inv := m.resList.map pyInvByte with hinvdef
  have hinvlen : inv.length = 9 + m.payloadContent.length := by
    rw [hinvdef, List.length_map, hconsform]
    simp
    omega
  have hinv3 : inv.map pyInvByte = m.resList := by
    rw [hinvdef, List.map_map]
    have := List.map_congr_left
      (l := m.resList) (f := pyInvByte ∘ pyInvByte) (g := id)
      (fun a ha => pyInv_invol (hbytes a ha))
    simpa using this
  have hck : SomfyMessage.compute_checksum inv = [inv.sum / 256 &&& 255, inv.sum % 256 &&& 255] := rfl
  set k0 := inv.sum / 256 &&& 255 with hk0
  set k1 := inv.sum % 256 &&& 255 with hk1
  show SomfyMessage.try_parse (inv ++ SomfyMessage.compute_checksum inv) = .ok (some m)
  rw [hck]
  have hdlen : (inv ++ [k0, k1]).length = 11 + m.payloadContent.length := by
    simp [hinvlen]
    omega
  have htake : (inv ++ [k0, k1]).take ((inv ++ [k0, k1]).length - 2) = inv := by
    have hx : (inv ++ [k0, k1]).length - 2 = inv.length := by simp
    rw [hx, List.take_left]
  simp only [SomfyMessage.try_parse]
  rw [htake, (pyIdx_append2 inv k0 k1).1]
  simp only [hck, List.getD_cons_zero, List.getD_cons_succ, ne_eq, not_true_eq_false,
    if_false]
  rw [(pyIdx_append2 inv k0 k1).2]
  simp only [eq_self_iff_true, not_true, if_false]
  rw [hinv3, hconsform, pyIdx_cons0, pyIdx_cons1, pyIdx_cons2]
  simp only [List.drop_succ_cons, List.drop_zero, List.take_succ_cons, List.take_zero]
  rw [hdlen]
  simp only [enum_or_int]
  rw [hmsgid, h8]
  have hpb1 : SomfyAddress.parse_bytes [m.from_addr.c, m.from_addr.b, m.from_addr.a] =
      .ok m.from_addr := rfl
  have hpb2 : SomfyAddress.parse_bytes [m.to_addr.c, m.to_addr.b, m.to_addr.a] =
      .ok m.to_addr := rfl
  rw [hpb1, hpb2]
  cases hm : m.need_ack
  · simp only [show (if (false = true) then (128 : Nat) else 0) = 0 from rfl]
    have hor0 : (m.payloadContent.length + 11) ||| 0 = m.payloadContent.length + 11 := by simp
    rw [hor0]
    have hc1 : (m.payloadContent.length + 11) &&& 127 = m.payloadContent.length + 11 :=
      (byteBits _ hL).2.2.2.1
    have hc2 : (m.payloadContent.length + 11) &&& 128 = 0 :=
      (byteBits _ hL).2.2.2.2
    rw [hc1, hc2, if_neg (not_not_intro (by omega)), hdest.1, hdest.2.1]
    rw [show ((0 : Nat) != 0) = false from rfl, ← hm]
  · simp only [if_true]
    have hc1 : ((m.payloadContent.length + 11) ||| 128) &&& 127 = m.payloadContent.length + 11 :=
      (byteBits _ hL).1
    have hc2 : ((m.payloadContent.length + 11) ||| 128) &&& 128 = 128 :=
      (byteBits _ hL).2.1
    rw [hc1, hc2, if_neg (not_not_intro (by omega)), hdest.1, hdest.2.1]
    simp only [show ((128 : Nat) != 0) = true from rfl]
    rw [← hm]

/-- C1 witness: the round trip evaluated on a concrete CTRL_MOVETO frame. -/
theorem c1_roundtrip_witness : ValidFrame moveToFrame ∧
    SomfyMessage.try_parse (SomfyMessage.serialize moveToFrame) = .ok (some moveToFrame) := by
  have hv : ValidFrame moveToFrame :=
    ⟨by decide, by decide, by decide, by decide, by decide, by decide, by decide,
     by decide, by decide, by decide, by decide, rfl⟩
  exact ⟨hv, c1_roundtrip moveToFrame hv⟩


set_option maxRecDepth 10000 in
/-- Flipping one bit of a byte adds or subtracts that power of two. -/
theorem xorSplit : ∀ x < 256, ∀ k < 8, (x ^^^ 2 ^ k = x + 2 ^ k) ∨ (x = (x ^^^ 2 ^ k) + 2 ^ k) := by decide

/-- Evaluating the Python subscript xs[-2]. -/
theorem pyIdx_neg2_eval (xs : List Nat) (h : 2 ≤ xs.length) :
    pyIdx xs (-2) = .ok (xs.getD (xs.length - 2) 0) := by
  unfold pyIdx
  have hj : (if (-2 : Int) < 0 then -2 + (xs.length : Int) else -2) = ((xs.length - 2 : Nat) : Int) := by
    rw [if_pos (by norm_num)]
    omega
  rw [hj, if_pos ⟨by positivity, by push_cast; omega⟩, Int.toNat_natCast]

/-- Evaluating the Python subscript xs[-1]. -/
theorem pyIdx_neg1_eval (xs : List Nat) (h : 1 ≤ xs.length) :
    pyIdx xs (-1) = .ok (xs.getD (xs.length - 1) 0) := by
  unfold pyIdx
  have hj : (if (-1 : Int) < 0 then -1 + (xs.length : Int) else -1) = ((xs.length - 1 : Nat) : Int) := by
    rw [if_pos (by norm_num)]
    omega
  rw [hj, if_pos ⟨by positivity, by push_cast; omega⟩, Int.toNat_natCast]

/-- Replacing one list entry changes the sum by the difference. -/
theorem sum_set_add (l : List Nat) (j y : Nat) (h : j < l.length) :
    (l.set j y).sum + l.getD j 0 = l.sum + y := by
  induction l generalizing j with
  | nil => simp at h
  | cons a t ih =>
    cases j with
    | zero => simp [List.set]; omega
    | succ jj =>
      simp only [List.set, List.sum_cons, List.getD_cons_succ]
      have := ih jj (by simpa using h)
      omega

/-- A successful decode means the input had at least two bytes and both
checksum comparisons succeeded. -/
theorem try_parse_ok_some_checks (data : List Nat) (mm : SomfyMessage)
    (h : SomfyMessage.try_parse data = .ok (some mm)) :
    2 ≤ data.length ∧
    (SomfyMessage.compute_checksum (data.take (data.length - 2))).getD 0 0 =
      data.getD (data.length - 2) 0 ∧
    (SomfyMessage.compute_checksum (data.take (data.length - 2))).getD 1 0 =
      data.getD (data.length - 1) 0 := by
  simp only [SomfyMessage.try_parse] at h
  split at h
  · exact absurd h (by simp)
  · rename_i r2 d2 h2
    have hb := pyIdx_ok_nonneg_lt data (-2) d2 h2
    rw [if_pos (by norm_num)] at hb
    have hlen : 2 ≤ data.length := by omega
    have hval : d2 = data.getD (data.length - 2) 0 := by
      rw [pyIdx_neg2_eval data hlen] at h2
      exact (Except.ok.inj h2).symm
    split at h
    · exact absurd h (by simp)
    · rename_i hc0
      split at h
      · exact absurd h (by simp)
      · rename_i r1 d1 h1
        have hval1 : d1 = data.getD (data.length - 1) 0 := by
          rw [pyIdx_neg1_eval data (by omega)] at h1
          exact (Except.ok.inj h1).symm
        split at h
        · exact absurd h (by simp)
        · rename_i hc1
          refine ⟨hlen, ?_, ?_⟩
          · rw [← hval]
            exact not_not.mp hc0
          · rw [← hval1]
            exact not_not.mp hc1

/-- Setting one position leaves the others unchanged. -/
theorem getD_set_ne (l : List Nat) (i jj y : Nat) (h : i ≠ jj) :
    (l.set i y).getD jj 0 = l.getD jj 0 := by
  induction l generalizing i jj with
  | nil => simp [List.set]
  | cons a t ih =>
    cases i with
    | zero =>
      cases jj with
      | zero => exact absurd rfl h
      | succ m => simp [List.set]
    | succ ii =>
      cases jj with
      | zero => simp [List.set]
      | succ m =>
        simp only [List.set, List.getD_cons_succ]
        exact ih ii m (by omega)

/-- Reading back a position that was just set. -/
theorem getD_set_self (l : List Nat) (i y : Nat) (h : i < l.length) :
    (l.set i y).getD i 0 = y := by
  induction l generalizing i with
  | nil => simp at h
  | cons a t ih =>
    cases i with
    | zero => simp [List.set]
    | succ ii =>
      simp only [List.set, List.getD_cons_succ]
      exact ih ii (by simpa using h)

/-- Reading inside the taken part of a list. -/
theorem getD_take_lt (l : List Nat) (i m : Nat) (h : i < m) :
    (l.take m).getD i 0 = l.getD i 0 := by
  induction l generalizing i m with
  | nil => simp
  | cons a t ih =>
    cases m with
    | zero => omega
    | succ mm =>
      cases i with
      | zero => simp
      | succ ii =>
        simp only [List.take_succ_cons, List.getD_cons_succ]
        exact ih ii mm (by omega)

/-- C6: flipping any single bit of any byte other than the low checksum byte
of an accepted wire buffer makes try_parse return None: the corrupted buffer
always fails one of the two checksum comparisons, which proves the claimed
disjunction through its first disjunct (the second disjunct cannot occur at
all, since try_parse only returns frames whose declared length matches the
input length). -/
theorem c6_bitflip_rejected (B : List Nat) (mm : SomfyMessage) (j k : Nat)
    (hB : SomfyMessage.try_parse B = .ok (some mm))
    (hbytes : ∀ v ∈ B, v < 256)
    (hj : j ≤ B.length - 2) (hk : k < 8) :
    SomfyMessage.try_parse (flipBit B j k) = .ok none := by
  obtain ⟨hlen2, hc0, hc1⟩ := try_parse_ok_some_checks B mm hB
  set n := B.length with hn
  set x := B.getD j 0 with hx
  set y := x ^^^ 2 ^ k with hy
  have hjn : j < n := by omega
  have hxlt : x < 256 := by
    rw [hx, List.getD_eq_getElem B 0 hjn]
    exact hbytes _ (List.getElem_mem hjn)
  have hsplit := xorSplit x hxlt k hk
  have ht1 : 1 ≤ 2 ^ k := Nat.one_le_two_pow
  have ht2 : 2 ^ k ≤ 128 := by
    calc 2 ^ k ≤ 2 ^ 7 := Nat.pow_le_pow_right (by norm_num) (by omega)
    _ = 128 := by norm_num
  have hyx : ¬ (x = y) := by omega
  have hF : flipBit B j k = B.set j y := rfl
  rw [hF]
  have hslen : (B.set j y).length = n := by rw [List.length_set]
  set sb := B.take (n - 2) with hsb
  have hsblen : sb.length = n - 2 := by
    rw [hsb, List.length_take]
    omega
  have hck0 : sb.sum / 256 &&& 255 = B.getD (n - 2) 0 := hc0
  have hck1 : sb.sum % 256 &&& 255 = B.getD (n - 1) 0 := hc1
  simp only [SomfyMessage.try_parse, hslen, List.set_take, ← hsb]
  split
  · rename_i e he
    rw [pyIdx_neg2_eval _ (by rw [hslen]; omega)] at he
    exact absurd he (by simp)
  · rename_i d2 hd2eq
    rw [pyIdx_neg2_eval _ (by rw [hslen]; omega), hslen] at hd2eq
    have hd2v : (B.set j y).getD (n - 2) 0 = d2 := Except.ok.inj hd2eq
    split
    · rfl
    · rename_i hcm
      have hceq : (SomfyMessage.compute_checksum (sb.set j y)).getD 0 0 = d2 := not_not.mp hcm
      rcases Nat.lt_or_ge j (n - 2) with hcase | hcase
      · -- the flipped byte is summed into the checksum: the low checksum
        -- byte comparison must fail
        have hgetsb : sb.getD j 0 = x := by
          rw [hsb, getD_take_lt B j (n - 2) hcase]
        have hsum : (sb.set j y).sum + x = sb.sum + y := by
          rw [← hgetsb]
          exact sum_set_add sb j y (by omega)
        have hd1un : (B.set j y).getD (n - 1) 0 = B.getD (n - 1) 0 :=
          getD_set_ne B j (n - 1) y (by omega)
        split
        · rename_i e he
          rw [pyIdx_neg1_eval _ (by rw [hslen]; omega)] at he
          exact absurd he (by simp)
        · rename_i d1 hd1eq
          rw [pyIdx_neg1_eval _ (by rw [hslen]; omega), hslen, hd1un] at hd1eq
          have hd1v : B.getD (n - 1) 0 = d1 := Except.ok.inj hd1eq
          split
          · rfl
          · rename_i hcm1
            exfalso
            have hceq1 : (SomfyMessage.compute_checksum (sb.set j y)).getD 1 0 = d1 :=
              not_not.mp hcm1
            have he1 : (sb.set j y).sum % 256 &&& 255 = d1 := hceq1
            rw [and255_eq] at he1 hck1
            rw [hd1v] at hck1
            omega
      · -- the flipped byte is the high checksum byte: the body is unchanged
        -- and the high byte comparison must fail
        exfalso
        have hje : j = n - 2 := by omega
        have hbody : sb.set j y = sb := List.set_eq_of_length_le (by omega)
        rw [hbody] at hceq
        have he0 : sb.sum / 256 &&& 255 = d2 := hceq
        have hdset : (B.set j y).getD (n - 2) 0 = y := by
          rw [← hje]
          exact getD_set_self B j y hjn
        apply hyx
        rw [hx, hje, ← hck0, he0, ← hd2v, hdset]

/-- C6 witness: flipping bit 0 of byte 0 of the corpus frame is rejected. -/
theorem c6_bitflip_rejected_witness :
    SomfyMessage.try_parse hexmsg1 = .ok (some msg1frame) ∧
    (∀ v ∈ hexmsg1, v < 256) ∧ (0 : Nat) ≤ hexmsg1.length - 2 ∧ (0 : Nat) < 8 ∧
    SomfyMessage.try_parse (flipBit hexmsg1 0 0) = .ok none :=
  ⟨rfl, by decide, by decide, by decide,
   c6_bitflip_rejected hexmsg1 msg1frame 0 0 rfl (by decide) (by decide) (by decide)⟩

/-- The exchange read loop returns true exactly when some recognized frame
makes the consumer return false, and false when the byte budget runs out
first. -/
theorem exchange_reads_char (bs : List Nat) : ∀ (st : MessageRecognizer)
    (f : SomfyMessage → Bool) (ms : List SomfyMessage),
    recognizeFrom st bs = .ok ms →
    do_exchange_reads f st bs = .ok (ms.any fun m => !f m) := by
  induction bs with
  | nil =>
    intro st f ms h
    simp only [recognizeFrom] at h
    cases h
    rfl
  | cons b rest ih =>
    intro st f ms h
    simp only [recognizeFrom] at h
    simp only [do_exchange_reads]
    cases had : st.add_data b with
    | error e =>
      simp only [had] at h
      exact absurd h (by simp)
    | ok p =>
      obtain ⟨st2, e⟩ := p
      simp only [had] at h ⊢
      cases e with
      | none => exact ih st2 f ms h
      | some m =>
        cases hrest : recognizeFrom st2 rest with
        | error e2 =>
          simp only [hrest] at h
          exact absurd h (by simp)
        | ok ms2 =>
          simp only [hrest] at h
          cases h
          have hih := ih st2 f ms2 hrest
          cases hfm : f m with
          | true => simp [List.any_cons, hfm, hih]
          | false => simp [List.any_cons, hfm]

/-- C7: exchange returns true when the consumer is absent (fire-and-forget,
after the optional write); with a consumer, every frame on which the consumer
returns true keeps the read loop going, so if the consumer accepts every
frame the deadline expires (the byte list the channel yields before the
timeout is exhausted) and exchange returns false; and as soon as the consumer
returns false for some delivered frame, exchange returns true. -/
theorem c7_exchange_semantics (ts : Option SomfyMessage) (f : SomfyMessage → Bool)
    (bs : List Nat) (ms : List SomfyMessage) (hrec : recognizeAll bs = .ok ms) :
    SomfyConnector.exchange ts none bs = .ok true ∧
    ((∀ m ∈ ms, f m = true) → SomfyConnector.exchange ts (some f) bs = .ok false) ∧
    ((∃ m ∈ ms, f m = false) → SomfyConnector.exchange ts (some f) bs = .ok true) := by
  have hchar := exchange_reads_char bs (MessageRecognizer.new none) f ms hrec
  have hex : SomfyConnector.exchange ts (some f) bs =
      do_exchange_reads f (MessageRecognizer.new none) bs := by
    cases ts <;> rfl
  refine ⟨by cases ts <;> rfl, ?_, ?_⟩
  · intro hall
    have hany : (ms.any fun m => !f m) = false := by
      simp only [List.any_eq_false]
      intro m hm
      simp [hall m hm]
    rw [hex, hchar, hany]
  · rintro ⟨m, hm, hfm⟩
    have hany : (ms.any fun m => !f m) = true := by
      simp only [List.any_eq_true]
      exact ⟨m, hm, by simp [hfm]⟩
    rw [hex, hchar, hany]

/-- C7 witness: one corpus frame delivered to a consumer that stops at once. -/
theorem c7_exchange_semantics_witness :
    recognizeAll hexmsg1 = .ok [msg1frame] ∧
    SomfyConnector.exchange none (some (fun _ => false)) hexmsg1 = .ok true :=
  ⟨rfl, (c7_exchange_semantics none (fun _ => false) hexmsg1 [msg1frame] rfl).2.2
    ⟨msg1frame, by simp, rfl⟩⟩

/-- Ring reads are masked to a byte. -/
theorem ringAt_le (ring : List Nat) (i : Int) : ringAt ring i ≤ 255 := by
  unfold ringAt
  exact Nat.and_le_right

/-- Ring reads only depend on the index modulo 32. -/
theorem ringAt_congr (ring : List Nat) (i j : Int) (h : i % 32 = j % 32) :
    ringAt ring i = ringAt ring j := by
  unfold ringAt
  rw [h]

/-- The window start is a valid ring position. -/
theorem windowStart_lt (pos2 k : Nat) : windowStart pos2 k < 32 := by
  unfold windowStart
  omega

/-- The window start as an integer. -/
theorem windowStart_int (pos2 k : Nat) :
    ((windowStart pos2 k : Nat) : Int) = ((pos2 : Int) - k) % 32 := by
  unfold windowStart
  omega

/-- A window of length 1 to 31 does not start at the cursor. -/
theorem windowStart_ne_pos2 (pos2 k : Nat) (h3 : 1 ≤ k) (h31 : k ≤ 31)
    (hpos : pos2 < 32) : windowStart pos2 k ≠ pos2 := by
  unfold windowStart
  omega

/-- Moving the window start one position to the left. -/
theorem windowStart_step (pos2 k : Nat) :
    (((windowStart pos2 k : Nat) : Int) - 1) % 32 = ((pos2 : Int) - (k + 1)) % 32 := by
  unfold windowStart
  omega

/-- Before the first iteration nothing has been subtracted. -/
theorem windowSum_two (ring : List Nat) (pos2 : Nat) : windowSum ring pos2 2 = 0 := by
  unfold windowSum
  simp

/-- Each iteration subtracts one more ring byte. -/
theorem windowSum_step (ring : List Nat) (pos2 k : Nat) (h : 2 ≤ k) :
    windowSum ring pos2 (k + 1) = windowSum ring pos2 k + ringAt ring ((pos2 : Int) - (k + 1)) := by
  unfold windowSum
  have hr : k + 1 - 2 = (k - 2) + 1 := by omega
  rw [hr, List.range_succ, List.map_append, List.sum_append]
  simp only [List.map_cons, List.map_nil, List.sum_cons, List.sum_nil, Nat.add_zero]
  congr 2
  simp only [Int.ofNat_eq_natCast]
  omega

/-- The scanned bytes sum to at most 255 per byte. -/
theorem windowSum_le (ring : List Nat) (pos2 k : Nat) :
    windowSum ring pos2 k ≤ (k - 2) * 255 := by
  unfold windowSum
  have hb : ∀ x ∈ (List.range (k - 2)).map (fun j => ringAt ring ((pos2 : Int) - 3 - Int.ofNat j)),
      x ≤ 255 := by
    intro x hx
    simp only [List.mem_map] at hx
    obtain ⟨j, _, rfl⟩ := hx
    exact ringAt_le ring _
  have := List.sum_le_card_nsmul _ 255 hb
  simpa using this

/-- Moving the window start left, on ring positions. -/
theorem windowStart_step_toNat (pos2 k : Nat) :
    ((((windowStart pos2 k : Nat) : Int) - 1) % 32).toNat = windowStart pos2 (k + 1) := by
  unfold windowStart
  omega

/-- The window sum grows by the byte at the new left edge. -/
theorem windowSum_sub (ring : List Nat) (pos2 m : Nat) (h : 3 ≤ m) :
    windowSum ring pos2 m = windowSum ring pos2 (m - 1) + ringAt ring ((pos2 : Int) - (m : Int)) := by
  have hs := windowSum_step ring pos2 (m - 1) (by omega)
  rw [show m - 1 + 1 = m from by omega] at hs
  rw [hs]
  congr 1
  apply ringAt_congr
  have : ((m - 1 : Nat) : Int) + 1 = (m : Int) := by omega
  rw [show (pos2 : Int) - (((m - 1 : Nat) : Int) + 1) = (pos2 : Int) - (m : Int) from by omega]

/-- While the remainder stays nonzero, the backward scan walks left without
any other effect: the scan from candidate length m is the scan from the first
zero-remainder length n. -/
theorem scan_skip (filter : Option Nat) (ring : List Nat) (pos2 C n : Nat)
    (hpos : pos2 < 32) (h31 : n ≤ 31) :
    ∀ d m, 3 ≤ m → m + d = n →
    (∀ l, m ≤ l → l < n → windowSum ring pos2 l ≠ C) →
    scanLoop filter pos2 ring (windowStart pos2 m) m
      ((C : Int) - windowSum ring pos2 (m - 1)) (35 - m) =
    scanLoop filter pos2 ring (windowStart pos2 n) n
      ((C : Int) - windowSum ring pos2 (n - 1)) (35 - n) := by
  intro d
  induction d with
  | zero =>
    intro m h3 hmd hno
    have hmn : m = n := by omega
    subst hmn
    rfl
  | succ dd ih =>
    intro m h3 hmd hno
    have hmn : m < n := by omega
    rw [show 35 - m = (34 - m) + 1 from by omega]
    simp only [scanLoop]
    rw [if_neg (windowStart_ne_pos2 pos2 m (by omega) (by omega) hpos)]
    have hrg : ringAt ring ((windowStart pos2 m : Nat) : Int) =
        ringAt ring ((pos2 : Int) - (m : Int)) := by
      apply ringAt_congr
      rw [windowStart_int]
      omega
    rw [hrg]
    have hrem : (C : Int) - windowSum ring pos2 (m - 1) - ringAt ring ((pos2 : Int) - (m : Int)) =
        (C : Int) - windowSum ring pos2 m := by
      rw [windowSum_sub ring pos2 m h3]
      push_cast
      ring
    rw [hrem]
    rw [if_neg (by
      have := hno m (le_refl m) hmn
      omega)]
    rw [windowStart_step_toNat]
    rw [show (34 - m) = 35 - (m + 1) from by omega]
    rw [show (C : Int) - windowSum ring pos2 m =
        (C : Int) - windowSum ring pos2 ((m + 1) - 1) from by norm_num]
    exact ih (m + 1) (by omega) (by omega) (fun l hl1 hl2 => hno l (by omega) hl2)

/-- Unfolding the scan iteration at the candidate length where the remainder
reaches zero: too-short candidates are dropped, otherwise the window is copied
and parsed, and a filtered-out match blanks the ring and continues. -/
theorem scan_at_zero (filter : Option Nat) (ring : List Nat) (pos2 C n : Nat)
    (hpos : pos2 < 32) (h3 : 3 ≤ n) (h31 : n ≤ 31)
    (hzero : windowSum ring pos2 n = C) :
    scanLoop filter pos2 ring (windowStart pos2 n) n
      ((C : Int) - windowSum ring pos2 (n - 1)) (35 - n) =
    (if n < MIN_MESSAGE_LENGTH then .ok (ring, none)
     else
       match SomfyMessage.try_parse (MessageRecognizer.copy ring (windowStart pos2 n) n) with
       | .error e => .error e
       | .ok none => .ok (ring, none)
       | .ok (some msg) =>
         if filter = none ∨ filter = some msg.from_node_type then
           .ok (blank_out ring (windowStart pos2 n) n, some ⟨msg, windowStart pos2 n, n⟩)
         else
           scanLoop filter pos2 (blank_out ring (windowStart pos2 n) n)
             ((((windowStart pos2 n : Nat) : Int) - 1) % 32).toNat (n + 1) 0 (34 - n)) := by
  rw [show 35 - n = (34 - n) + 1 from by omega]
  simp only [scanLoop]
  rw [if_neg (windowStart_ne_pos2 pos2 n (by omega) h31 hpos)]
  have hrg : ringAt ring ((windowStart pos2 n : Nat) : Int) =
      ringAt ring ((pos2 : Int) - (n : Int)) := by
    apply ringAt_congr
    rw [windowStart_int]
    omega
  rw [hrg]
  have hrem : (C : Int) - windowSum ring pos2 (n - 1) - ringAt ring ((pos2 : Int) - (n : Int)) = 0 := by
    have hsum : windowSum ring pos2 (n - 1) + ringAt ring ((pos2 : Int) - (n : Int)) = C := by
      rw [← windowSum_sub ring pos2 n h3, hzero]
    omega
  rw [hrem, if_pos rfl]

set_option maxRecDepth 4000 in
/-- C4: when the running remainder of the backward scan first reaches zero at
candidate length n (windowSum equals the candidate checksum at n and nowhere
before), add_data returns None immediately if n < 11, and if the n-byte
candidate fails try_parse (returning None) then add_data returns None without
continuing the search leftward: the result depends only on this innermost
zero-remainder window, whatever lies further left. -/
theorem c4_scan_gives_up (st : MessageRecognizer) (b n : Nat)
    (hpos : st.pos < 32) (h3 : 3 ≤ n) (h31 : n ≤ 31)
    (hzero : windowSum (st.ring.set st.pos b) ((st.pos + 1) % 32) n = possibleChecksum st b)
    (hfirst : ∀ l, 3 ≤ l → l < n →
      windowSum (st.ring.set st.pos b) ((st.pos + 1) % 32) l ≠ possibleChecksum st b) :
    (n < 11 → ∃ st2, st.add_data b = .ok (st2, none)) ∧
    (11 ≤ n →
      SomfyMessage.try_parse (MessageRecognizer.copy (st.ring.set st.pos b)
        (windowStart ((st.pos + 1) % 32) n) n) = .ok none →
      ∃ st2, st.add_data b = .ok (st2, none)) := by
  set ring1 := st.ring.set st.pos b with hring1
  set pos2 := (st.pos + 1) % 32 with hpos2def
  set C := possibleChecksum st b with hCdef
  have hpos2 : pos2 < 32 := Nat.mod_lt _ (by norm_num)
  by_cases hC0 : C = 0
  · have hdone : st.add_data b = .ok (⟨ring1, st.node_type_filter, pos2⟩, none) := by
      unfold MessageRecognizer.add_data addDataCore
      rw [if_pos (Or.inr (by rw [hCdef] at hC0; unfold possibleChecksum at hC0; exact hC0))]
      rfl
    exact ⟨fun _ => ⟨_, hdone⟩, fun _ _ => ⟨_, hdone⟩⟩
  · have hCbound : C < 32 * 256 := by
      have hle := windowSum_le ring1 pos2 n
      omega
    have hcond : ¬ (32 * 256 ≤ ringAt st.ring ((st.pos : Int) - 1) * 256 + b ∨
        ringAt st.ring ((st.pos : Int) - 1) * 256 + b = 0) := by
      rw [hCdef] at hC0 hCbound
      unfold possibleChecksum at hC0 hCbound
      omega
    have hcore : addDataCore st b =
        (match scanLoop st.node_type_filter pos2 ring1 (windowStart pos2 3) 3
            ((C : Int) - windowSum ring1 pos2 (3 - 1)) (35 - 3) with
          | .error e => .error e
          | .ok (r2, e) => .ok (⟨r2, st.node_type_filter, pos2⟩, e)) := by
      simp only [addDataCore]
      rw [if_neg hcond]
      rfl
    rw [scan_skip st.node_type_filter ring1 pos2 C n hpos2 h31 (n - 3) 3 (le_refl 3)
      (by omega) (fun l h1 h2 => hfirst l h1 h2),
      scan_at_zero st.node_type_filter ring1 pos2 C n hpos2 h3 h31 hzero] at hcore
    constructor
    · intro h11
      rw [if_pos (show n < MIN_MESSAGE_LENGTH from h11)] at hcore
      refine ⟨⟨ring1, st.node_type_filter, pos2⟩, ?_⟩
      unfold MessageRecognizer.add_data
      rw [hcore]
      rfl
    · intro h11 hparse
      rw [if_neg (show ¬ n < MIN_MESSAGE_LENGTH from by unfold MIN_MESSAGE_LENGTH; omega)] at hcore
      rw [hparse] at hcore
      refine ⟨⟨ring1, st.node_type_filter, pos2⟩, ?_⟩
      unfold MessageRecognizer.add_data
      rw [hcore]
      rfl

/-- C4 witness: a ring where the remainder first vanishes at length 5. -/
theorem c4_scan_gives_up_witness :
    windowSum (shortCandState.ring.set shortCandState.pos 10) ((shortCandState.pos + 1) % 32) 5 =
      possibleChecksum shortCandState 10 ∧
    ∃ st2, shortCandState.add_data 10 = .ok (st2, none) :=
  ⟨by decide,
   (c4_scan_gives_up shortCandState 10 5 (by decide) (by decide) (by decide) (by decide)
     (fun l h1 h2 =>
       (by decide : ∀ l < 5, 3 ≤ l →
         windowSum (shortCandState.ring.set shortCandState.pos 10)
           ((shortCandState.pos + 1) % 32) l ≠ possibleChecksum shortCandState 10) l h2 h1)).1
     (by decide)⟩

/-- Blanking preserves the ring size. -/
theorem blank_out_length : ∀ (c : Nat) (ring : List Nat) (f : Nat),
    (blank_out ring f c).length = ring.length := by
  intro c
  induction c with
  | zero => intro ring f; rfl
  | succ cc ih =>
    intro ring f
    simp only [blank_out, ih, List.length_set]

/-- Blanking does not touch positions outside the window. -/
theorem blank_out_getD_outside : ∀ (c : Nat) (ring : List Nat) (f p : Nat),
    (∀ i, i < c → (f + i) % 32 ≠ p) →
    (blank_out ring f c).getD p 0 = ring.getD p 0 := by
  intro c
  induction c with
  | zero => intro ring f p _; rfl
  | succ cc ih =>
    intro ring f p hno
    simp only [blank_out]
    rw [ih (ring.set (f % 32) 255) (f + 1) p ?later]
    case later =>
      intro i hi
      have := hno (i + 1) (by omega)
      rw [show f + 1 + i = f + (i + 1) from by omega]
      exact this
    exact getD_set_ne ring (f % 32) p 255 (by
      have := hno 0 (by omega)
      simpa using this)

/-- Every position inside the blanked window reads 0xFF. -/
theorem blank_out_getD_hit : ∀ (c : Nat) (ring : List Nat) (f p : Nat),
    ring.length = 32 → (∃ i, i < c ∧ (f + i) % 32 = p) →
    (blank_out ring f c).getD p 0 = 255 := by
  intro c
  induction c with
  | zero => intro ring f p _ h; omega
  | succ cc ih =>
    intro ring f p hlen hex
    obtain ⟨i, hi, hip⟩ := hex
    simp only [blank_out]
    by_cases hlater : ∃ j, j < cc ∧ (f + 1 + j) % 32 = p
    · exact ih (ring.set (f % 32) 255) (f + 1) p (by rw [List.length_set]; exact hlen) hlater
    · cases i with
      | zero =>
        rw [blank_out_getD_outside cc (ring.set (f % 32) 255) (f + 1) p (by
          intro j hj
          intro hcon
          exact hlater ⟨j, hj, hcon⟩)]
        rw [show p = f % 32 from by omega]
        exact getD_set_self ring (f % 32) 255 (by rw [hlen]; omega)
      | succ ii =>
        exfalso
        apply hlater
        exact ⟨ii, by omega, by rw [show f + 1 + ii = f + (ii + 1) from by omega]; exact hip⟩

/-- Whatever the scan emits was read from a window that ends at the cursor,
and the emitted window is blanked to 0xFF in the resulting ring. -/
theorem scan_emit (filter : Option Nat) (pos2 : Nat) :
    ∀ (fuel : Nat) (ring : List Nat) (start count : Nat) (rem : Int)
      (r2 : List Nat) (e : EmitInfo),
    scanLoop filter pos2 ring start count rem fuel = .ok (r2, some e) →
    pos2 < 32 → start < 32 → ring.length = 32 → count ≤ 32 →
    ((start : Int) + count) % 32 = pos2 →
    (e.start + e.count) % 32 = pos2 ∧ r2.length = 32 ∧
    (∀ i, i < e.count → r2.getD ((e.start + i) % 32) 0 = 255) := by
  intro fuel
  induction fuel with
  | zero =>
    intro ring start count rem r2 e h
    exact absurd h (by simp [scanLoop])
  | succ ff ih =>
    intro ring start count rem r2 e h hpos hstart hlen hcount hinv
    simp only [scanLoop] at h
    split at h
    · exact absurd h (by simp)
    · rename_i hne
      have hc32 : count ≤ 31 := by
        rcases Nat.lt_or_ge count 32 with hl | hg
        · omega
        · exfalso
          have hc : count = 32 := by omega
          subst hc
          apply hne
          omega
      split at h
      · -- the remainder reached zero
        split at h
        · exact absurd h (by simp)
        · split at h
          · exact absurd h (by simp)
          · exact absurd h (by simp)
          · rename_i msg hparse
            split at h
            · -- emission at the current window
              simp only [Except.ok.injEq, Prod.mk.injEq, Option.some.injEq] at h
              obtain ⟨h1, h2⟩ := h
              subst h1
              subst h2
              refine ⟨?_, by rw [blank_out_length]; exact hlen, ?_⟩
              · show (start + count) % 32 = pos2
                omega
              · intro i hi
                exact blank_out_getD_hit count ring start _ hlen ⟨i, hi, rfl⟩
            · -- node-type filter mismatch: scan continues on the blanked ring
              refine ih _ _ _ _ _ _ h hpos (by omega) (by rw [blank_out_length]; exact hlen)
                (by omega) (by omega)
      · -- nonzero remainder: move the window start left
        exact ih _ _ _ _ _ _ h hpos (by omega) hlen (by omega) (by omega)

/-- The scan never changes the ring size. -/
theorem scan_ring_len (filter : Option Nat) (pos2 : Nat) :
    ∀ (fuel : Nat) (ring : List Nat) (start count : Nat) (rem : Int)
      (r2 : List Nat) (e : Option EmitInfo),
    scanLoop filter pos2 ring start count rem fuel = .ok (r2, e) →
    r2.length = ring.length := by
  intro fuel
  induction fuel with
  | zero =>
    intro ring start count rem r2 e h
    simp only [scanLoop] at h
    cases h
    rfl
  | succ ff ih =>
    intro ring start count rem r2 e h
    simp only [scanLoop] at h
    split at h
    · cases h; rfl
    · split at h
      · split at h
        · cases h; rfl
        · split at h
          · exact absurd h (by simp)
          · cases h; rfl
          · split at h
            · cases h
              rw [blank_out_length]
            · have := ih _ _ _ _ _ _ h
              rw [this, blank_out_length]
      · exact ih _ _ _ _ _ _ h

/-- Every successful add_data call advances the cursor by one modulo 32 and
preserves the filter and the ring size. -/
theorem addDataCore_shape (st : MessageRecognizer) (b : Nat) (st2 : MessageRecognizer)
    (e : Option EmitInfo) (h : addDataCore st b = .ok (st2, e)) :
    st2.pos = (st.pos + 1) % 32 ∧ st2.node_type_filter = st.node_type_filter ∧
    st2.ring.length = st.ring.length := by
  simp only [addDataCore] at h
  split at h
  · cases h
    refine ⟨rfl, rfl, ?_⟩
    rw [List.length_set]
  · split at h
    · exact absurd h (by simp)
    · rename_i r2 e2 hscan
      cases h
      refine ⟨rfl, rfl, ?_⟩
      rw [scan_ring_len _ _ _ _ _ _ _ _ _ hscan, List.length_set]

/-- An emitting add_data call: the window ends at the new cursor and its ring
positions are blanked. -/
theorem addDataCore_emit (st : MessageRecognizer) (b : Nat) (st2 : MessageRecognizer)
    (e : EmitInfo) (h : addDataCore st b = .ok (st2, some e))
    (hpos : st.pos < 32) (hlen : st.ring.length = 32) :
    st2.pos = (st.pos + 1) % 32 ∧ (e.start + e.count) % 32 = st2.pos ∧
    st2.ring.length = 32 ∧
    (∀ i, i < e.count → st2.ring.getD ((e.start + i) % 32) 0 = 255) := by
  have hshape := addDataCore_shape st b st2 (some e) h
  simp only [addDataCore] at h
  split at h
  · exact absurd h (by simp)
  · split at h
    · exact absurd h (by simp)
    · rename_i r2 e2 hscan
      have hpos2 : (st.pos + 1) % 32 < 32 := Nat.mod_lt _ (by norm_num)
      cases h
      have hsem := scan_emit st.node_type_filter ((st.pos + 1) % 32) 32
        (st.ring.set st.pos b) _ 3 _ r2 e hscan hpos2 (by omega) (by rw [List.length_set]; exact hlen)
        (by omega) (by omega)
      exact ⟨rfl, hsem.1, hsem.2.1, hsem.2.2⟩

/-- Over any sequence of fed bytes, an emission at step j has its window end
at the cursor position reached after j+1 bytes. -/
theorem feedTrace_emit_pos (bs : List Nat) :
    ∀ (st : MessageRecognizer) (tr : List (Option EmitInfo)) (stf : MessageRecognizer),
    feedTrace st bs = .ok (tr, stf) → st.pos < 32 → st.ring.length = 32 →
    ∀ (j : Nat) (e : EmitInfo), tr.getD j none = some e →
    (e.start + e.count) % 32 = (st.pos + (j + 1)) % 32 := by
  induction bs with
  | nil =>
    intro st tr stf h hpos hlen j e hj
    simp only [feedTrace] at h
    cases h
    simp at hj
  | cons b rest ih =>
    intro st tr stf h hpos hlen j e hj
    simp only [feedTrace] at h
    split at h
    · exact absurd h (by simp)
    · rename_i st2 e0 hcore
      split at h
      · exact absurd h (by simp)
      · rename_i tr2 stf2 hrest
        cases h
        obtain ⟨hp2, _, hl2⟩ := addDataCore_shape st b st2 e0 hcore
        cases j with
        | zero =>
          simp only [List.getD_cons_zero] at hj
          subst hj
          have := addDataCore_emit st b st2 e hcore hpos hlen
          rw [this.2.1, this.1]
        | succ jj =>
          simp only [List.getD_cons_succ] at hj
          have := ih st2 _ _ hrest (by rw [hp2]; exact Nat.mod_lt _ (by norm_num))
            (by rw [hl2]; exact hlen) jj e hj
          rw [this, hp2, Nat.mod_add_mod]
          congr 1
          omega


/-- C5: when add_data emits a frame from ring window (s, n), every position of
that window holds 0xFF afterwards, the window ends at the new cursor, and the
same region cannot be recognized again from leftover bytes: any later call
that emits from the very same window comes a multiple of 32 bytes later, i.e.
at least 32 fresh bytes have been fed, by which time every blanked position of
the region has been overwritten by new input. -/
theorem c5_blank_and_no_reemit (st : MessageRecognizer) (b : Nat) (st2 : MessageRecognizer)
    (msg : SomfyMessage) (s n : Nat)
    (hpos : st.pos < 32) (hlen : st.ring.length = 32)
    (h : addDataCore st b = .ok (st2, some ⟨msg, s, n⟩)) :
    (∀ i, i < n → st2.ring.getD ((s + i) % 32) 0 = 255) ∧
    st2.pos = (st.pos + 1) % 32 ∧ (s + n) % 32 = st2.pos ∧
    (∀ (bs : List Nat) (tr : List (Option EmitInfo)) (stf : MessageRecognizer) (j : Nat)
       (e : EmitInfo),
      feedTrace st2 bs = .ok (tr, stf) → tr.getD j none = some e →
      e.start = s → e.count = n → 32 ∣ (j + 1) ∧ 32 ≤ j + 1) := by
  have hem := addDataCore_emit st b st2 ⟨msg, s, n⟩ h hpos hlen
  have hwin : (s + n) % 32 = st2.pos := hem.2.1
  refine ⟨hem.2.2.2, hem.1, hwin, ?_⟩
  intro bs tr stf j e hft hj hs hn
  have hpos2 : st2.pos < 32 := by
    rw [hem.1]
    exact Nat.mod_lt _ (by norm_num)
  have hfut := feedTrace_emit_pos bs st2 tr stf hft hpos2 hem.2.2.1 j e hj
  rw [hs, hn] at hfut
  have h2 : st2.pos = (st2.pos + (j + 1)) % 32 := by rw [← hfut, hwin]
  constructor
  · omega
  · omega

set_option maxRecDepth 100000 in
/-- C5 witness: the corpus frame emitted from window (0, 11). -/
theorem c5_witness :
    addDataCore preState 0x32 = .ok (postState, some ⟨msg1frame, 0, 11⟩) ∧
    preState.pos < 32 ∧ preState.ring.length = 32 ∧
    (∀ i, i < 11 → postState.ring.getD ((0 + i) % 32) 0 = 255) :=
  ⟨rfl, by decide, by decide,
   (c5_blank_and_no_reemit preState 0x32 postState msg1frame 0 11 (by decide) (by decide)
     rfl).1⟩

/-- The copied window has exactly count bytes. -/
theorem copy_length (ring : List Nat) (s c : Nat) :
    (MessageRecognizer.copy ring s c).length = c := by
  simp [MessageRecognizer.copy]

/-- The copied window reads the ring through ring_at. -/
theorem copy_getD (ring : List Nat) (s c i : Nat) (h : i < c) :
    (MessageRecognizer.copy ring s c).getD i 0 = ringAt ring ((s + i : Nat) : Int) := by
  unfold MessageRecognizer.copy
  rw [List.getD_eq_getElem _ 0 (by simpa using h)]
  simp

/-- Copied bytes are masked bytes. -/
theorem copy_mem_le (ring : List Nat) (s c : Nat) :
    ∀ v ∈ MessageRecognizer.copy ring s c, v ≤ 255 := by
  intro v hv
  simp only [MessageRecognizer.copy, List.mem_map] at hv
  obtain ⟨i, _, rfl⟩ := hv
  exact ringAt_le ring _

/-- A buffer of at most 32 bytes whose second-to-last byte is 0xFF can never
pass the checksum comparison: the high checksum byte of a sum of at most 30
bytes is below 30. -/
theorem try_parse_highbyte_255 (data : List Nat) (h3 : 3 ≤ data.length)
    (h32 : data.length ≤ 32) (hmem : ∀ v ∈ data, v ≤ 255)
    (h255 : data.getD (data.length - 2) 0 = 255) :
    SomfyMessage.try_parse data = .ok none := by
  simp only [SomfyMessage.try_parse]
  split
  · rename_i e he
    rw [pyIdx_neg2_eval _ (by omega)] at he
    exact absurd he (by simp)
  · rename_i d2 hd2
    rw [pyIdx_neg2_eval _ (by omega)] at hd2
    have hd2v : d2 = 255 := by
      rw [← Except.ok.inj hd2, h255]
    split
    · rfl
    · rename_i hcm
      exfalso
      have hck : (SomfyMessage.compute_checksum (data.take (data.length - 2))).getD 0 0 = d2 :=
        not_not.mp hcm
      have hb : ∀ v ∈ data.take (data.length - 2), v ≤ 255 := by
        intro v hv
        exact hmem v (List.mem_of_mem_take hv)
      have hsle := List.sum_le_card_nsmul (data.take (data.length - 2)) 255 hb
      have hlen30 : (data.take (data.length - 2)).length ≤ 30 := by
        rw [List.length_take]
        omega
      have hsum : (data.take (data.length - 2)).sum ≤ 30 * 255 := by
        have : (data.take (data.length - 2)).length • 255 ≤ 30 * 255 := by
          simp only [smul_eq_mul]
          exact Nat.mul_le_mul_right 255 hlen30
        omega
      simp only [SomfyMessage.compute_checksum, List.getD_cons_zero] at hck
      rw [and255_eq] at hck
      omega

/-- Once the two ring bytes just before the cursor are 0xFF, the continued
scan can never emit anything and leaves the ring unchanged: every candidate
window ends in those bytes, so its checksum comparison fails. -/
theorem scan_after_blank (filter : Option Nat) (pos2 : Nat) :
    ∀ (fuel : Nat) (ring : List Nat) (start count : Nat) (rem : Int),
    pos2 < 32 → start < 32 → 3 ≤ count → count ≤ 32 →
    ((start : Int) + count) % 32 = pos2 →
    ringAt ring ((pos2 : Int) - 2) = 255 → ringAt ring ((pos2 : Int) - 1) = 255 →
    scanLoop filter pos2 ring start count rem fuel = .ok (ring, none) := by
  intro fuel
  induction fuel with
  | zero => intros; simp [scanLoop]
  | succ ff ih =>
    intro ring start count rem hpos hstart h3 hcount hinv h2 h1
    simp only [scanLoop]
    split
    · rfl
    · rename_i hne
      have hc31 : count ≤ 31 := by
        rcases Nat.lt_or_ge count 32 with hl | hg
        · omega
        · exfalso
          have hc : count = 32 := by omega
          subst hc
          exact hne (by omega)
      split
      · split
        · rfl
        · rename_i hrz hc11
          rw [try_parse_highbyte_255 (MessageRecognizer.copy ring start count)
            (by rw [copy_length]; unfold MIN_MESSAGE_LENGTH at hc11; omega)
            (by rw [copy_length]; omega) (copy_mem_le ring start count) ?h255]
          case h255 =>
            rw [copy_length]
            rw [copy_getD ring start count (count - 2)
              (by unfold MIN_MESSAGE_LENGTH at hc11; omega)]
            rw [ringAt_congr ring _ ((pos2 : Int) - 2) (by omega)]
            exact h2
      · exact ih _ _ _ _ hpos (by omega) (by omega) (by omega) (by omega) h2 h1

set_option maxRecDepth 4000 in
/-- C10: when the backward scan finds a region that try_parse accepts but a
node-type filter is configured and the from-type of the frame differs, the
ring window is still blanked to 0xFF, the frame is returned to nobody and
add_data returns None; the continued leftward scan cannot emit anything else
because every larger window ends in the blanked 0xFF bytes.  Together with the
window-end argument of the C5 theorem, the consumed bytes can never be emitted
by a later call. -/
theorem c10_filtered_consumed (st : MessageRecognizer) (b n t : Nat) (msg : SomfyMessage)
    (hpos : st.pos < 32) (hlen : st.ring.length = 32)
    (h11 : 11 ≤ n) (h31 : n ≤ 31)
    (hC0 : possibleChecksum st b ≠ 0)
    (hzero : windowSum (st.ring.set st.pos b) ((st.pos + 1) % 32) n = possibleChecksum st b)
    (hfirst : ∀ l, 3 ≤ l → l < n →
      windowSum (st.ring.set st.pos b) ((st.pos + 1) % 32) l ≠ possibleChecksum st b)
    (hparse : SomfyMessage.try_parse (MessageRecognizer.copy (st.ring.set st.pos b)
      (windowStart ((st.pos + 1) % 32) n) n) = .ok (some msg))
    (hfilter : st.node_type_filter = some t)
    (hmism : ¬ (t = msg.from_node_type)) :
    ∃ st2, st.add_data b = .ok (st2, none) ∧ st2.pos = (st.pos + 1) % 32 ∧
      (∀ i, i < n →
        st2.ring.getD ((windowStart ((st.pos + 1) % 32) n + i) % 32) 0 = 255) := by
  set ring1 := st.ring.set st.pos b with hring1
  set pos2 := (st.pos + 1) % 32 with hpos2def
  set C := possibleChecksum st b with hCdef
  have hpos2 : pos2 < 32 := Nat.mod_lt _ (by norm_num)
  have hlen1 : ring1.length = 32 := by rw [hring1, List.length_set]; exact hlen
  have hCbound : C < 32 * 256 := by
    have hle := windowSum_le ring1 pos2 n
    omega
  have hcond : ¬ (32 * 256 ≤ ringAt st.ring ((st.pos : Int) - 1) * 256 + b ∨
      ringAt st.ring ((st.pos : Int) - 1) * 256 + b = 0) := by
    rw [hCdef] at hC0 hCbound
    unfold possibleChecksum at hC0 hCbound
    omega
  have hcore : addDataCore st b =
      (match scanLoop st.node_type_filter pos2 ring1 (windowStart pos2 3) 3
          ((C : Int) - windowSum ring1 pos2 (3 - 1)) (35 - 3) with
        | .error e => .error e
        | .ok (r2, e) => .ok (⟨r2, st.node_type_filter, pos2⟩, e)) := by
    simp only [addDataCore]
    rw [if_neg hcond]
    rfl
  rw [scan_skip st.node_type_filter ring1 pos2 C n hpos2 h31 (n - 3) 3 (le_refl 3)
    (by omega) (fun l hl1 hl2 => hfirst l hl1 hl2),
    scan_at_zero st.node_type_filter ring1 pos2 C n hpos2 (by omega) h31 hzero] at hcore
  rw [if_neg (show ¬ n < MIN_MESSAGE_LENGTH from by unfold MIN_MESSAGE_LENGTH; omega)] at hcore
  rw [hparse] at hcore
  have hcore2 : addDataCore st b =
      (match (if st.node_type_filter = none ∨ st.node_type_filter = some msg.from_node_type then
          Except.ok (blank_out ring1 (windowStart pos2 n) n,
            some (⟨msg, windowStart pos2 n, n⟩ : EmitInfo))
        else
          scanLoop st.node_type_filter pos2 (blank_out ring1 (windowStart pos2 n) n)
            ((((windowStart pos2 n : Nat) : Int) - 1) % 32).toNat (n + 1) 0 (34 - n)) with
        | .error e => .error e
        | .ok (r2, e) => .ok (⟨r2, st.node_type_filter, pos2⟩, e)) := hcore
  rw [hfilter] at hcore2
  rw [if_neg (by simp [hmism])] at hcore2
  have hidxa : (windowStart pos2 n + (n - 2)) % 32 = (((pos2 : Int) - 2) % 32).toNat := by
    have hws := windowStart_int pos2 n
    omega
  have hidxb : (windowStart pos2 n + (n - 1)) % 32 = (((pos2 : Int) - 1) % 32).toNat := by
    have hws := windowStart_int pos2 n
    omega
  have h255a : ringAt (blank_out ring1 (windowStart pos2 n) n) ((pos2 : Int) - 2) = 255 := by
    unfold ringAt
    rw [blank_out_getD_hit n ring1 (windowStart pos2 n) _ hlen1 ⟨n - 2, by omega, hidxa⟩]
    decide
  have h255b : ringAt (blank_out ring1 (windowStart pos2 n) n) ((pos2 : Int) - 1) = 255 := by
    unfold ringAt
    rw [blank_out_getD_hit n ring1 (windowStart pos2 n) _ hlen1 ⟨n - 1, by omega, hidxb⟩]
    decide
  rw [scan_after_blank (some t) pos2 (34 - n) (blank_out ring1 (windowStart pos2 n) n)
    ((((windowStart pos2 n : Nat) : Int) - 1) % 32).toNat (n + 1) 0 hpos2 (by omega)
    (by omega) (by omega) ?hinv h255a h255b]
    at hcore2
  case hinv =>
    have hws := windowStart_int pos2 n
    omega
  have hfinal : addDataCore st b =
      .ok (⟨blank_out ring1 (windowStart pos2 n) n, some t, pos2⟩, none) := hcore2
  refine ⟨⟨blank_out ring1 (windowStart pos2 n) n, some t, pos2⟩, ?_, rfl, ?_⟩
  · unfold MessageRecognizer.add_data
    rw [hfinal]
    rfl
  · intro i hi
    exact blank_out_getD_hit n ring1 (windowStart pos2 n) _ hlen1 ⟨i, hi, rfl⟩

set_option maxRecDepth 100000 in
/-- C10 witness: the corpus frame suppressed by a mismatching filter. -/
theorem c10_witness :
    preStateFiltered.node_type_filter = some 5 ∧
    (∃ st2, preStateFiltered.add_data 0x32 = .ok (st2, none) ∧
      st2.pos = (preStateFiltered.pos + 1) % 32 ∧
      (∀ i, i < 11 →
        st2.ring.getD ((windowStart ((preStateFiltered.pos + 1) % 32) 11 + i) % 32) 0 = 255)) :=
  ⟨rfl, c10_filtered_consumed preStateFiltered 0x32 11 5 msg1frame (by decide) (by decide)
    (by decide) (by decide) (by decide) (by decide)
    (fun l h1 h2 =>
      (by decide : ∀ l < 11, 3 ≤ l →
        windowSum (preStateFiltered.ring.set preStateFiltered.pos 0x32)
          ((preStateFiltered.pos + 1) % 32) l ≠ possibleChecksum preStateFiltered 0x32) l h2 h1)
    rfl rfl (by decide)⟩
